import Mathlib

/-!
Verification development for the rotation and time-tracking engine of the
work-rotator app (src/src-tauri/src/lib.rs).  The in-memory `AppState`
(projects, current project index, active tracking sessions) together with the
append-only `time_entries` ledger written through to the store is embedded as
`EngineState`; each Tauri command is translated into a pure function on that
state.  The wall clock (`now_seconds()` in the source) is passed explicitly
as a `Nat` argument.  Machine integers (`u64`, `usize`) are modelled as `Nat`;
the `u64` subtraction `end_time - started_at` is modelled by truncated `Nat`
subtraction, which agrees with the source whenever `started_at <= now`.
-/

namespace Rotator

/-- `Task` struct from lib.rs (in-memory view; archived tasks are not loaded). -/
structure Task where
  id : Nat
  name : String
  time_seconds : Nat
  done_at : Option Nat
deriving Repr, DecidableEq

/-- `Project` struct from lib.rs. -/
structure Project where
  id : Nat
  name : String
  tasks : List Task
  current_task_index : Nat
deriving Repr, DecidableEq

/-- `ActiveTracking` struct from lib.rs. -/
structure ActiveTracking where
  project_id : Nat
  task_id : Nat
  started_at : Nat
deriving Repr, DecidableEq

/-- `TimeEntry` struct from lib.rs.  The SQLite-assigned autoincrement `id`
column is omitted: the engine never reads it back during tracking. -/
structure TimeEntry where
  project_id : Nat
  task_id : Nat
  start_time : Nat
  end_time : Nat
  duration_seconds : Nat
deriving Repr, DecidableEq

/-- The in-memory engine state guarded by the `AppState` mutexes in lib.rs,
plus the `time_entries` table of the store, which the stop paths append to
via `db.execute("INSERT INTO time_entries ...")`. -/
structure EngineState where
  projects : List Project
  current_project_index : Nat
  active_tracking : List ActiveTracking
  time_entries : List TimeEntry
deriving Repr, DecidableEq

/-- Mutate the first element of a list satisfying `p` by `f`, leaving the rest
unchanged: the effect of `iter_mut().find(...)` followed by a mutation. -/
def updateFirst {α : Type} (p : α → Bool) (f : α → α) : List α → List α
  | [] => []
  | x :: xs => if p x then f x :: xs else x :: updateFirst p f xs

/-- `projects.iter().find(|p| p.id == pid)` then `.tasks.iter().find(|t| t.id == tid)`:
the nested lookup used by every commit site in lib.rs. -/
def lookupTask (projects : List Project) (pid tid : Nat) : Option Task :=
  (projects.find? (fun p => p.id == pid)).bind
    (fun p => p.tasks.find? (fun tk => tk.id == tid))

/-- `projects.iter().any(|p| p.id == project_id && p.tasks.iter().any(|t| t.id == task_id))`
from `start_tracking` / `start_tracking_internal`. -/
def taskExists (projects : List Project) (pid tid : Nat) : Bool :=
  projects.any (fun p => p.id == pid && p.tasks.any (fun tk => tk.id == tid))

/-- The row inserted into `time_entries` when a session `t` is committed at
time `endTime`. -/
def mkTimeEntry (t : ActiveTracking) (endTime : Nat) : TimeEntry :=
  { project_id := t.project_id
    task_id := t.task_id
    start_time := t.started_at
    end_time := endTime
    duration_seconds := endTime - t.started_at }

/-- The closure applied to the matching task inside a commit: add the elapsed
seconds to the task's cumulative `time_seconds`. -/
def addElapsed (elapsed : Nat) (tk : Task) : Task :=
  { tk with time_seconds := tk.time_seconds + elapsed }

/-- The project mutation performed by a commit: update the first task with the
given id inside the project's task list. -/
def commitIntoProject (tid elapsed : Nat) (p : Project) : Project :=
  { p with tasks := updateFirst (fun tk => tk.id == tid) (addElapsed elapsed) p.tasks }

/-- One iteration of the commit loop shared by `stop_all_tracking_internal`,
`stop_tracking_for_task_internal` and `stop_tracking` in lib.rs: if the
session `t` has elapsed at least 3 seconds and its project and task are found
in the cache, add the elapsed time to the task's `time_seconds` and append a
`TimeEntry` row; otherwise leave the state untouched. -/
def commitSession (st : EngineState) (t : ActiveTracking) (endTime : Nat) : EngineState :=
  let elapsed := endTime - t.started_at
  if 3 ≤ elapsed then
    match st.projects.find? (fun p => p.id == t.project_id) with
    | some project =>
      match project.tasks.find? (fun tk => tk.id == t.task_id) with
      | some _ =>
        { st with
          projects := updateFirst (fun p => p.id == t.project_id)
            (commitIntoProject t.task_id elapsed) st.projects
          time_entries := st.time_entries ++ [mkTimeEntry t endTime] }
      | none => st
    | none => st
  else st

/-- `stop_all_tracking_internal` from lib.rs: commit every session (the loop
iterates over the tracking list while mutating only projects and the ledger),
then clear all active tracking. -/
def stop_all_tracking_internal (st : EngineState) (now : Nat) : EngineState :=
  let st1 := st.active_tracking.foldl (fun acc t => commitSession acc t now) st
  { st1 with active_tracking := [] }

/-- `stop_tracking_for_task_internal` from lib.rs: stop only the session of
the given task, committing it when long enough, and return its elapsed time. -/
def stop_tracking_for_task_internal (st : EngineState) (tid now : Nat) :
    Option Nat × EngineState :=
  match st.active_tracking.find? (fun t => t.task_id == tid) with
  | some t =>
    let elapsed := now - t.started_at
    let st1 := commitSession st t now
    (some elapsed,
      { st1 with active_tracking := st1.active_tracking.filter (fun u => u.task_id != tid) })
  | none => (none, st)

/-- `stop_tracking` command from lib.rs: with a task id, delegate to the
single-task path; without one, stop every session, returning the sum of all
elapsed times (including sub-3-second ones) while committing only the
sessions of at least 3 seconds. -/
def stop_tracking (st : EngineState) (tid? : Option Nat) (now : Nat) :
    Option Nat × EngineState :=
  match tid? with
  | some tid => stop_tracking_for_task_internal st tid now
  | none =>
    if st.active_tracking.isEmpty then (none, st)
    else
      let total := st.active_tracking.foldl (fun acc t => acc + (now - t.started_at)) 0
      let st1 := st.active_tracking.foldl (fun acc t => commitSession acc t now) st
      (some total, { st1 with active_tracking := [] })

/-- `start_tracking_internal` from lib.rs: push a new session when the
project/task pair exists in the cache, else change nothing. -/
def start_tracking_internal (st : EngineState) (pid tid now : Nat) :
    List ActiveTracking × EngineState :=
  if taskExists st.projects pid tid then
    let st1 := { st with
      active_tracking := st.active_tracking ++ [⟨pid, tid, now⟩] }
    (st1.active_tracking, st1)
  else (st.active_tracking, st)

/-- `start_tracking` command from lib.rs.  `now1` is the clock value read by
`stop_all_tracking_internal` on the exclusive path, `now2` the one read when
the new session is created (the source calls `now_seconds()` separately at
each point). -/
def start_tracking (st : EngineState) (pid tid : Nat) (allow_multiple : Bool)
    (now1 now2 : Nat) : List ActiveTracking × EngineState :=
  if st.active_tracking.any (fun t => t.task_id == tid) then
    (st.active_tracking, st)
  else if !allow_multiple && !st.active_tracking.isEmpty then
    start_tracking_internal (stop_all_tracking_internal st now1) pid tid now2
  else
    start_tracking_internal st pid tid now2

/-- The scan loop of `rotate_task` in lib.rs, `for i in 1..=task_count`:
probe index `(start + i) % task_count` and select the first task whose
`done_at` is unset.  `fuel` counts the remaining iterations; the first call
passes `i = 1` and `fuel = tasks.length`. -/
def rotScan (tasks : List Task) (start : Nat) : Nat → Nat → Option (Nat × Task)
  | _, 0 => none
  | i, fuel + 1 =>
    let idx := (start + i) % tasks.length
    match tasks.get? idx with
    | some tk =>
      if tk.done_at.isNone then some (idx, tk) else rotScan tasks start (i + 1) fuel
    | none => rotScan tasks start (i + 1) fuel

/-- The whole scan of `rotate_task`: at most `len(tasks)` probes starting one
past `current_task_index`. -/
def findRotation (tasks : List Task) (start : Nat) : Option (Nat × Task) :=
  rotScan tasks start 1 tasks.length

/-- `rotate_task` command from lib.rs.  The outer `Option` records whether the
operation completes: the source indexes `projects[*current_idx]` after only an
`is_empty` check, so a stored index outside the list makes it panic, embedded
here as `none`. -/
def rotate_task (st : EngineState) : Option (Option Task × EngineState) :=
  if st.projects.isEmpty then some (none, st)
  else
    match st.projects.get? st.current_project_index with
    | none => none
    | some project =>
      if project.tasks.isEmpty then some (none, st)
      else
        match findRotation project.tasks project.current_task_index with
        | some (idx, tk) =>
          let project1 := { project with current_task_index := idx }
          some (some tk,
            { st with projects := st.projects.set st.current_project_index project1 })
        | none => some (none, st)

/-- `set_current_project` command from lib.rs: a valid positive index moves
the selected project to the front and selects position 0; index 0 (when a
project exists) is a pure selection; an out-of-range index is a no-op. -/
def set_current_project (st : EngineState) (index : Nat) : Nat × EngineState :=
  match st.projects.get? index with
  | some p =>
    if 0 < index then
      (0, { st with projects := p :: st.projects.eraseIdx index, current_project_index := 0 })
    else
      (index, { st with current_project_index := index })
  | none => (st.current_project_index, st)

/-- `rotate_project` command from lib.rs. -/
def rotate_project (st : EngineState) : (Nat × Option Project) × EngineState :=
  if st.projects.isEmpty then ((0, none), st)
  else
    let idx := (st.current_project_index + 1) % st.projects.length
    ((idx, st.projects.get? idx), { st with current_project_index := idx })

/-- `get_current_project` command from lib.rs.  As in `rotate_task`, the outer
`Option` is `none` exactly when the source's `projects[*current]` indexing
panics (non-empty list, index out of range). -/
def get_current_project (st : EngineState) : Option (Option Project) :=
  if st.projects.isEmpty then some none
  else
    match st.projects.get? st.current_project_index with
    | some p => some (some p)
    | none => none

/-- `remove_project` command from lib.rs (soft archive): drop the project from
the cache, drop its active sessions, and clamp the current index. -/
def remove_project (st : EngineState) (pid : Nat) : List Project × EngineState :=
  match st.projects.findIdx? (fun p => p.id == pid) with
  | some pos =>
    let tracking1 := st.active_tracking.filter (fun t => t.project_id != pid)
    let projects1 := st.projects.eraseIdx pos
    let current1 :=
      if projects1.length ≤ st.current_project_index && !projects1.isEmpty then 0
      else st.current_project_index
    let st1 := { st with projects := projects1,
                         active_tracking := tracking1,
                         current_project_index := current1 }
    (projects1, st1)
  | none => (st.projects, st)

/-- The task-list mutation inside `remove_task`: erase the task at its
position and clamp the project's `current_task_index`. -/
def removeTaskFromProject (tid : Nat) (p : Project) : Project :=
  match p.tasks.findIdx? (fun tk => tk.id == tid) with
  | some pos =>
    let tasks1 := p.tasks.eraseIdx pos
    let cti1 :=
      if tasks1.length ≤ p.current_task_index && !tasks1.isEmpty then 0
      else p.current_task_index
    { p with tasks := tasks1, current_task_index := cti1 }
  | none => p

/-- `remove_task` command from lib.rs (soft archive): if the project exists,
drop any session for the task and erase the task from that project. -/
def remove_task (st : EngineState) (pid tid : Nat) : Option Project × EngineState :=
  if (st.projects.find? (fun p => p.id == pid)).isSome then
    let tracking1 := st.active_tracking.filter (fun t => t.task_id != tid)
    let projects1 := updateFirst (fun p => p.id == pid) (removeTaskFromProject tid) st.projects
    ((projects1.find? (fun p => p.id == pid)),
      { st with projects := projects1, active_tracking := tracking1 })
  else (none, st)

/-- `reset_database` command from lib.rs: wipe every table and reset the
in-memory state. -/
def reset_database (_st : EngineState) : List Project × EngineState :=
  ([], { projects := [], current_project_index := 0, active_tracking := []
         time_entries := [] })

/-- The engine operations quantified over by the session-uniqueness invariant:
each constructor carries the command's arguments, with the clock readings made
explicit. -/
inductive Op where
  | startTracking (pid tid : Nat) (allow_multiple : Bool) (now1 now2 : Nat)
  | stopTracking (tid? : Option Nat) (now : Nat)
  | removeTask (pid tid : Nat)
  | removeProject (pid : Nat)
  | resetDatabase
deriving Repr, DecidableEq

/-- Apply one engine operation to the state (discarding the returned value). -/
def step (st : EngineState) : Op → EngineState
  | .startTracking pid tid allow n1 n2 => (start_tracking st pid tid allow n1 n2).2
  | .stopTracking tid? now => (stop_tracking st tid? now).2
  | .removeTask pid tid => (remove_task st pid tid).2
  | .removeProject pid => (remove_project st pid).2
  | .resetDatabase => (reset_database st).2

/-- Run a sequence of engine operations. -/
def runOps (st : EngineState) (ops : List Op) : EngineState :=
  ops.foldl step st

/-- A row of the `tasks` table.  A store from a version before a column was
added is represented with that column at its SQL default (`done`/`archived`
false, the timestamp columns `NULL`), which is exactly the value every row
holds right after the swallowed `ALTER TABLE ... ADD COLUMN ... DEFAULT 0`. -/
structure TaskRow where
  id : Nat
  project_id : Nat
  name : String
  time_seconds : Nat
  done : Bool
  done_at : Option Nat
  archived : Bool
  archived_at : Option Nat
deriving Repr, DecidableEq

/-- A row of the `projects` table. -/
structure ProjectRow where
  id : Nat
  name : String
  current_task_index : Nat
  archived : Bool
  archived_at : Option Nat
deriving Repr, DecidableEq

/-- A row of the `active_tracking` table (`id` is its integer primary key). -/
structure ATRow where
  id : Nat
  project_id : Nat
  task_id : Nat
  started_at : Nat
deriving Repr, DecidableEq

/-- Which tables and migration-added columns exist: the schema shape touched
by `init_db`. -/
structure Schema where
  projects_table : Bool
  tasks_table : Bool
  projects_archived_col : Bool
  tasks_archived_col : Bool
  tasks_done_col : Bool
  tasks_done_at_col : Bool
  tasks_archived_at_col : Bool
  projects_archived_at_col : Bool
  app_state_table : Bool
  active_tracking_table : Bool
  time_entries_table : Bool
deriving Repr, DecidableEq

/-- The durable store: schema shape plus table contents. -/
structure Store where
  schema : Schema
  projects : List ProjectRow
  tasks : List TaskRow
  active_tracking : List ATRow
  time_entries : List TimeEntry
deriving Repr, DecidableEq

/-- The schema after `init_db`: every table and column present. -/
def fullSchema : Schema :=
  { projects_table := true, tasks_table := true, projects_archived_col := true,
    tasks_archived_col := true, tasks_done_col := true, tasks_done_at_col := true,
    tasks_archived_at_col := true, projects_archived_at_col := true,
    app_state_table := true, active_tracking_table := true, time_entries_table := true }

/-- The two `UPDATE tasks ...` migration statements of `init_db`: stamp
`done_at` (resp. `archived_at`) with the current time on rows whose legacy
boolean is set and whose timestamp is still `NULL`. -/
def migrateTaskRow (now : Nat) (r : TaskRow) : TaskRow :=
  let r1 := if r.done && r.done_at.isNone then { r with done_at := some now } else r
  if r1.archived && r1.archived_at.isNone then { r1 with archived_at := some now } else r1

/-- The `UPDATE projects ...` migration statement of `init_db`. -/
def migrateProjectRow (now : Nat) (r : ProjectRow) : ProjectRow :=
  if r.archived && r.archived_at.isNone then { r with archived_at := some now } else r

/-- `INSERT OR IGNORE INTO active_tracking_new SELECT * FROM active_tracking`:
append each row unless its primary key is already present in the target. -/
def insertOrIgnoreAT (tbl rows : List ATRow) : List ATRow :=
  rows.foldl (fun acc r => if acc.any (fun x => x.id == r.id) then acc else acc ++ [r]) tbl

/-- `init_db` from lib.rs: create any missing table, add any missing column
(failures on already-existing ones are swallowed by `.ok()`), stamp the legacy
boolean flags into the timestamp columns, and rebuild `active_tracking`
through the fresh `active_tracking_new` table. -/
def init_db (s : Store) (now : Nat) : Store :=
  { schema := fullSchema,
    projects := s.projects.map (migrateProjectRow now),
    tasks := s.tasks.map (migrateTaskRow now),
    active_tracking := insertOrIgnoreAT [] s.active_tracking,
    time_entries := s.time_entries }

/-- `DONE_HIDE_AFTER_SECONDS` constant from lib.rs (5 hours). -/
def DONE_HIDE_AFTER_SECONDS : Nat := 5 * 60 * 60

/-- The `WHERE` clause of `load_tasks` in lib.rs, applied to one row:
`archived_at IS NULL AND (done_at IS NULL OR done_at > cutoff)` with
`cutoff = now.saturating_sub(DONE_HIDE_AFTER_SECONDS)`. -/
def taskRowVisible (now : Nat) (r : TaskRow) : Bool :=
  r.archived_at.isNone &&
    (match r.done_at with
     | none => true
     | some d => now - DONE_HIDE_AFTER_SECONDS < d)

/-- `load_tasks` from lib.rs: the rows of one project that pass the
visibility clause (the query orders by `id`; `rows` is the table in that
order, and filtering preserves it). -/
def load_tasks (conn : Store) (now pid : Nat) : List TaskRow :=
  conn.tasks.filter (fun r => r.project_id == pid && taskRowVisible now r)

/-- The full process state: the in-memory `StateCache` fields of `AppState`
(projects, current index, id counters, sessions) and the durable store. -/
structure AppFull where
  projects : List Project
  current_project_index : Nat
  next_project_id : Nat
  next_task_id : Nat
  active_tracking : List ActiveTracking
  db : Store
deriving Repr, DecidableEq

/-- `get_projects` command from lib.rs: a clone of the in-memory list. -/
def get_projects (s : AppFull) : List Project :=
  s.projects

/-- `delete_task_permanent` command from lib.rs: delete the task's ledger
entries and its row; only `db` statements are issued. -/
def delete_task_permanent (s : AppFull) (tid : Nat) : Bool × AppFull :=
  (true,
    { s with db := { s.db with
        time_entries := s.db.time_entries.filter (fun e => e.task_id != tid),
        tasks := s.db.tasks.filter (fun r => r.id != tid) } })

/-- `delete_project_permanent` command from lib.rs: delete the project's
ledger entries, its task rows and its row; only `db` statements are issued. -/
def delete_project_permanent (s : AppFull) (pid : Nat) : Bool × AppFull :=
  (true,
    { s with db := { s.db with
        time_entries := s.db.time_entries.filter (fun e => e.project_id != pid),
        tasks := s.db.tasks.filter (fun r => r.project_id != pid),
        projects := s.db.projects.filter (fun r => r.id != pid) } })

/-- A session commits at `endTime` iff it lasted at least 3 seconds and its
project/task pair is found in the cache: the guard under which a commit site
in lib.rs reaches the two `db.execute` statements. -/
def commits (st : EngineState) (t : ActiveTracking) (endTime : Nat) : Bool :=
  decide (3 ≤ endTime - t.started_at) &&
    (lookupTask st.projects t.project_id t.task_id).isSome

/-- The commit loop over a list of sessions (as run by the stop-all paths). -/
def foldCommit (st : EngineState) (tr : List ActiveTracking) (now : Nat) : EngineState :=
  tr.foldl (fun acc t => commitSession acc t now) st

/-! Concrete tasks, projects, rows and states used to instantiate the
theorems on explicit inputs. -/

/-- A task with some accumulated time, used by the concrete states. -/
def tkA : Task := { id := 1, name := "alpha", time_seconds := 100, done_at := none }

/-- A second task, in a second project. -/
def tkB : Task := { id := 2, name := "beta", time_seconds := 5, done_at := none }

/-- A project holding `tkA`. -/
def prA : Project := { id := 1, name := "Work", tasks := [tkA], current_task_index := 0 }

/-- A project holding `tkB`. -/
def prB : Project := { id := 2, name := "Home", tasks := [tkB], current_task_index := 0 }

/-- An empty third project. -/
def prC : Project := { id := 3, name := "Misc", tasks := [], current_task_index := 0 }

/-- Two projects, with a session running on task 1 of project 1. -/
def exclStateEx : EngineState :=
  { projects := [prA, prB], current_project_index := 0,
    active_tracking := [{ project_id := 1, task_id := 1, started_at := 0 }],
    time_entries := [] }

/-- One project, with a session running on its only task: starting a
non-existent task in exclusive mode from here stops the session and starts
nothing. -/
def missingTargetEx : EngineState :=
  { projects := [prA], current_project_index := 0,
    active_tracking := [{ project_id := 1, task_id := 1, started_at := 0 }],
    time_entries := [] }

/-- Same shape as `missingTargetEx`, used for the stop-path instantiation. -/
def stopStateEx : EngineState :=
  { projects := [prA], current_project_index := 0,
    active_tracking := [{ project_id := 1, task_id := 1, started_at := 0 }],
    time_entries := [] }

/-- The four tasks of the rotation example: T1 and T3 done, T2 and T4 not. -/
def rotT1 : Task := { id := 1, name := "T1", time_seconds := 0, done_at := some 5 }

/-- Second rotation task (not done). -/
def rotT2 : Task := { id := 2, name := "T2", time_seconds := 0, done_at := none }

/-- Third rotation task (done). -/
def rotT3 : Task := { id := 3, name := "T3", time_seconds := 0, done_at := some 6 }

/-- Fourth rotation task (not done). -/
def rotT4 : Task := { id := 4, name := "T4", time_seconds := 0, done_at := none }

/-- The rotation example project `[T1(done), T2, T3(done), T4]` at index 0. -/
def rotProj : Project :=
  { id := 1, name := "R", tasks := [rotT1, rotT2, rotT3, rotT4], current_task_index := 0 }

/-- State holding the rotation example project. -/
def rotStateEx : EngineState :=
  { projects := [rotProj], current_project_index := 0, active_tracking := [],
    time_entries := [] }

/-- Three projects `[A, B, C]` for the selection-promotion example. -/
def selStateEx : EngineState :=
  { projects := [prA, prB, prC], current_project_index := 0, active_tracking := [],
    time_entries := [] }

/-- A cache as rebuilt at startup from a store whose persisted
`current_project_index` is 1 while only one project is visible (e.g. after a
crash between `remove_project`'s archive write and its index save). -/
def staleIndexEx : EngineState :=
  { projects := [prA], current_project_index := 1, active_tracking := [],
    time_entries := [] }

/-- A task row completed recently (within the done-hide window). -/
def doneRowEx : TaskRow :=
  { id := 1, project_id := 1, name := "recent", time_seconds := 0,
    done := false, done_at := some 50, archived := false, archived_at := none }

/-- A task row completed exactly `DONE_HIDE_AFTER_SECONDS` before the probe
time 18100 (`done_at = 100`). -/
def boundaryRowEx : TaskRow :=
  { id := 2, project_id := 1, name := "boundary", time_seconds := 0,
    done := false, done_at := some 100, archived := false, archived_at := none }

/-- Store holding only `doneRowEx`. -/
def storeVisibleEx : Store :=
  { schema := fullSchema, projects := [], tasks := [doneRowEx],
    active_tracking := [], time_entries := [] }

/-- Store holding only `boundaryRowEx`. -/
def storeBoundaryEx : Store :=
  { schema := fullSchema, projects := [], tasks := [boundaryRowEx],
    active_tracking := [], time_entries := [] }

theorem updateFirst_find?_self {α : Type} (p : α → Bool) (f : α → α)
    (hp : ∀ x, p (f x) = p x) (l : List α) :
    (updateFirst p f l).find? p = (l.find? p).map f := by
  induction l with
  | nil => rfl
  | cons x xs ih =>
    cases hx : p x with
    | true =>
      rw [updateFirst, if_pos hx, List.find?_cons_of_pos _ ((hp x).trans hx),
        List.find?_cons_of_pos _ hx, Option.map_some']
    | false =>
      rw [updateFirst, if_neg (by simp [hx]), List.find?_cons_of_neg _ (by simp [hx]),
        List.find?_cons_of_neg _ (by simp [hx]), ih]

theorem updateFirst_find?_other {α : Type} (p q : α → Bool) (f : α → α)
    (hq : ∀ x, q (f x) = q x) (hdisj : ∀ x, q x = true → p x = false) (l : List α) :
    (updateFirst p f l).find? q = l.find? q := by
  induction l with
  | nil => rfl
  | cons x xs ih =>
    cases hx : p x with
    | true =>
      have hqx : q x = false := by
        cases hqx : q x with
        | true => rw [hdisj x hqx] at hx; cases hx
        | false => rfl
      rw [updateFirst, if_pos hx, List.find?_cons_of_neg _ (by simp [hq, hqx]),
        List.find?_cons_of_neg _ (by simp [hqx])]
    | false =>
      cases hqx : q x with
      | true =>
        rw [updateFirst, if_neg (by simp [hx]), List.find?_cons_of_pos _ hqx,
          List.find?_cons_of_pos _ hqx]
      | false =>
        rw [updateFirst, if_neg (by simp [hx]), List.find?_cons_of_neg _ (by simp [hqx]),
          List.find?_cons_of_neg _ (by simp [hqx]), ih]

theorem updateFirst_any {α : Type} (p q : α → Bool) (f : α → α)
    (hq : ∀ x, q (f x) = q x) (l : List α) :
    (updateFirst p f l).any q = l.any q := by
  induction l with
  | nil => rfl
  | cons x xs ih =>
    cases hx : p x with
    | true => rw [updateFirst, if_pos hx, List.any_cons, List.any_cons, hq]
    | false => rw [updateFirst, if_neg (by simp [hx]), List.any_cons, List.any_cons, ih]

theorem commitIntoProject_id (tid elapsed : Nat) (p : Project) :
    (commitIntoProject tid elapsed p).id = p.id := rfl

theorem addElapsed_id (elapsed : Nat) (tk : Task) : (addElapsed elapsed tk).id = tk.id := rfl

theorem commitSession_eq (st : EngineState) (t : ActiveTracking) (e : Nat) :
    commitSession st t e =
      if commits st t e then
        { st with
          projects := updateFirst (fun p => p.id == t.project_id)
            (commitIntoProject t.task_id (e - t.started_at)) st.projects,
          time_entries := st.time_entries ++ [mkTimeEntry t e] }
      else st := by
  by_cases h3 : 3 ≤ e - t.started_at
  · rw [commitSession]
    simp only [if_pos h3]
    cases hfp : st.projects.find? (fun p => p.id == t.project_id) with
    | none => simp [commits, lookupTask, hfp, h3]
    | some project =>
      cases hft : project.tasks.find? (fun tk => tk.id == t.task_id) with
      | none => simp [commits, lookupTask, hfp, hft, h3]
      | some tk => simp [commits, lookupTask, hfp, hft, h3]
  · rw [commitSession]
    simp [commits, h3]

theorem commitSession_active_tracking (st : EngineState) (t : ActiveTracking) (e : Nat) :
    (commitSession st t e).active_tracking = st.active_tracking := by
  rw [commitSession_eq]; split <;> rfl

theorem commitSession_cpi (st : EngineState) (t : ActiveTracking) (e : Nat) :
    (commitSession st t e).current_project_index = st.current_project_index := by
  rw [commitSession_eq]; split <;> rfl

theorem lookupTask_commitSession_other (st : EngineState) (t : ActiveTracking)
    (e pid tid : Nat) (h : ¬(t.project_id = pid ∧ t.task_id = tid)) :
    lookupTask (commitSession st t e).projects pid tid = lookupTask st.projects pid tid := by
  rw [commitSession_eq]
  split
  · show lookupTask (updateFirst _ _ st.projects) pid tid = _
    by_cases hpid : t.project_id = pid
    · have htid : t.task_id ≠ tid := fun htid => h ⟨hpid, htid⟩
      unfold lookupTask
      subst hpid
      rw [show (fun p => p.id == t.project_id) = fun p : Project => p.id == t.project_id from rfl]
      rw [updateFirst_find?_self _ _ (fun p => by simp [commitIntoProject_id])]
      cases hfp : st.projects.find? (fun p => p.id == t.project_id) with
      | none => rfl
      | some project =>
        show ((commitIntoProject t.task_id _ project).tasks.find? _) = _
        unfold commitIntoProject
        exact updateFirst_find?_other _ _ _
          (fun tk => by simp [addElapsed_id])
          (fun tk htk => by
            simp only [beq_iff_eq] at htk
            simp only [htk, beq_eq_false_iff_ne, ne_eq]
            exact fun hh => htid hh.symm) project.tasks
    · unfold lookupTask
      rw [updateFirst_find?_other _ _ _
        (fun p => by simp [commitIntoProject_id])
        (fun p hp => by
          simp only [beq_iff_eq] at hp
          simp only [hp, beq_eq_false_iff_ne, ne_eq]
          exact fun hh => hpid hh.symm)]
  · rfl

theorem lookupTask_commitSession_self (st : EngineState) (t : ActiveTracking) (e : Nat) :
    lookupTask (commitSession st t e).projects t.project_id t.task_id =
      if commits st t e then
        (lookupTask st.projects t.project_id t.task_id).map (addElapsed (e - t.started_at))
      else lookupTask st.projects t.project_id t.task_id := by
  rw [commitSession_eq]
  split
  · show lookupTask (updateFirst _ _ st.projects) t.project_id t.task_id = _
    unfold lookupTask
    rw [updateFirst_find?_self _ _ (fun p => by simp [commitIntoProject_id])]
    cases hfp : st.projects.find? (fun p => p.id == t.project_id) with
    | none => rfl
    | some project =>
      show ((commitIntoProject t.task_id _ project).tasks.find? _) = _
      unfold commitIntoProject
      rw [updateFirst_find?_self _ _ (fun tk => by simp [addElapsed_id])]
      rfl
  · rfl

theorem lookupTask_commitSession_isSome (st : EngineState) (t : ActiveTracking)
    (e pid tid : Nat) :
    (lookupTask (commitSession st t e).projects pid tid).isSome =
      (lookupTask st.projects pid tid).isSome := by
  by_cases h : t.project_id = pid ∧ t.task_id = tid
  · obtain ⟨h1, h2⟩ := h
    subst h1; subst h2
    rw [lookupTask_commitSession_self]
    split
    · cases lookupTask st.projects t.project_id t.task_id <;> rfl
    · rfl
  · rw [lookupTask_commitSession_other _ _ _ _ _ h]

theorem commits_commitSession (st : EngineState) (t u : ActiveTracking) (e e2 : Nat) :
    commits (commitSession st t e2) u e = commits st u e := by
  unfold commits
  rw [lookupTask_commitSession_isSome]

theorem commitIntoProject_existsPred (tid0 elapsed pid tid : Nat) (p : Project) :
    ((commitIntoProject tid0 elapsed p).id == pid
      && (commitIntoProject tid0 elapsed p).tasks.any (fun tk => tk.id == tid))
      = (p.id == pid && p.tasks.any (fun tk => tk.id == tid)) := by
  show (p.id == pid
      && (updateFirst (fun tk => tk.id == tid0) (addElapsed elapsed) p.tasks).any
        (fun tk => tk.id == tid)) = _
  rw [updateFirst_any (fun tk => tk.id == tid0) (fun tk => tk.id == tid)
    (addElapsed elapsed) (fun tk => by simp [addElapsed_id]) p.tasks]

theorem taskExists_commitSession (st : EngineState) (t : ActiveTracking)
    (e pid tid : Nat) :
    taskExists (commitSession st t e).projects pid tid = taskExists st.projects pid tid := by
  rw [commitSession_eq]
  split
  · show taskExists (updateFirst _ _ st.projects) pid tid = _
    unfold taskExists
    exact updateFirst_any _ _ _
      (fun p => commitIntoProject_existsPred t.task_id _ pid tid p) st.projects
  · rfl

theorem foldCommit_active_tracking (tr : List ActiveTracking) (st : EngineState) (now : Nat) :
    (foldCommit st tr now).active_tracking = st.active_tracking := by
  induction tr generalizing st with
  | nil => rfl
  | cons t tr ih =>
    show (foldCommit (commitSession st t now) tr now).active_tracking = _
    rw [ih, commitSession_active_tracking]

theorem lookupTask_foldCommit_isSome (tr : List ActiveTracking) (st : EngineState)
    (now pid tid : Nat) :
    (lookupTask (foldCommit st tr now).projects pid tid).isSome =
      (lookupTask st.projects pid tid).isSome := by
  induction tr generalizing st with
  | nil => rfl
  | cons t tr ih =>
    show (lookupTask (foldCommit (commitSession st t now) tr now).projects pid tid).isSome = _
    rw [ih, lookupTask_commitSession_isSome]

theorem commits_foldCommit (tr : List ActiveTracking) (st : EngineState)
    (u : ActiveTracking) (e now : Nat) :
    commits (foldCommit st tr now) u e = commits st u e := by
  unfold commits
  rw [lookupTask_foldCommit_isSome]

theorem taskExists_foldCommit (tr : List ActiveTracking) (st : EngineState)
    (now pid tid : Nat) :
    taskExists (foldCommit st tr now).projects pid tid = taskExists st.projects pid tid := by
  induction tr generalizing st with
  | nil => rfl
  | cons t tr ih =>
    show taskExists (foldCommit (commitSession st t now) tr now).projects pid tid = _
    rw [ih, taskExists_commitSession]

theorem foldCommit_time_entries (tr : List ActiveTracking) (st : EngineState) (now : Nat) :
    (foldCommit st tr now).time_entries =
      st.time_entries ++
        (tr.filter (fun t => commits st t now)).map (fun t => mkTimeEntry t now) := by
  induction tr generalizing st with
  | nil => simp [foldCommit]
  | cons t tr ih =>
    show (foldCommit (commitSession st t now) tr now).time_entries = _
    rw [ih]
    have hfc : tr.filter (fun u => commits (commitSession st t now) u now)
        = tr.filter (fun u => commits st u now) :=
      List.filter_congr (fun u _ => commits_commitSession st t u now now)
    rw [hfc, commitSession_eq]
    by_cases hc : commits st t now
    · rw [if_pos hc]
      simp [List.filter_cons, hc]
    · rw [if_neg hc]
      simp [List.filter_cons, hc]

theorem lookupTask_foldCommit_other (tr : List ActiveTracking) (st : EngineState)
    (now pid tid : Nat) (h : ∀ t ∈ tr, ¬(t.project_id = pid ∧ t.task_id = tid)) :
    lookupTask (foldCommit st tr now).projects pid tid = lookupTask st.projects pid tid := by
  induction tr generalizing st with
  | nil => rfl
  | cons t tr ih =>
    show lookupTask (foldCommit (commitSession st t now) tr now).projects pid tid = _
    rw [ih (commitSession st t now) (fun u hu => h u (List.mem_cons_of_mem t hu)),
      lookupTask_commitSession_other _ _ _ _ _ (h t (List.mem_cons_self t tr))]

theorem lookupTask_foldCommit_self (tr : List ActiveTracking) (st : EngineState)
    (now : Nat) (t : ActiveTracking) (hmem : t ∈ tr)
    (hnd : (tr.map (fun u => u.task_id)).Nodup) :
    lookupTask (foldCommit st tr now).projects t.project_id t.task_id =
      if commits st t now then
        (lookupTask st.projects t.project_id t.task_id).map (addElapsed (now - t.started_at))
      else lookupTask st.projects t.project_id t.task_id := by
  induction tr generalizing st with
  | nil => cases hmem
  | cons u tr ih =>
    rw [List.map_cons, List.nodup_cons] at hnd
    rcases List.mem_cons.mp hmem with rfl | hmem
    · show lookupTask (foldCommit (commitSession st t now) tr now).projects _ _ = _
      rw [lookupTask_foldCommit_other tr _ now t.project_id t.task_id
        (fun v hv hvt => hnd.1 (hvt.2 ▸ List.mem_map_of_mem (fun w => w.task_id) hv)),
        lookupTask_commitSession_self]
    · have hne : ¬(u.project_id = t.project_id ∧ u.task_id = t.task_id) := by
        rintro ⟨-, h2⟩
        exact hnd.1 (h2 ▸ List.mem_map_of_mem (fun w => w.task_id) hmem)
      show lookupTask (foldCommit (commitSession st u now) tr now).projects _ _ = _
      rw [ih (commitSession st u now) hmem hnd.2, commits_commitSession,
        lookupTask_commitSession_other _ _ _ _ _ hne]

theorem find?_eq_of_mem_nodup (tr : List ActiveTracking) (t : ActiveTracking)
    (hmem : t ∈ tr) (hnd : (tr.map (fun u => u.task_id)).Nodup) :
    tr.find? (fun u => u.task_id == t.task_id) = some t := by
  induction tr with
  | nil => cases hmem
  | cons u tr ih =>
    rw [List.map_cons, List.nodup_cons] at hnd
    rcases List.mem_cons.mp hmem with rfl | hmem
    · exact List.find?_cons_of_pos _ (by simp)
    · refine (List.find?_cons_of_neg _ ?_).trans (ih hmem hnd.2)
      intro hh
      have hh2 : u.task_id = t.task_id := by simpa using hh
      exact hnd.1 (hh2 ▸ List.mem_map_of_mem (fun w => w.task_id) hmem)

theorem filter_beq_of_mem_nodup (tr : List ActiveTracking) (t : ActiveTracking)
    (hmem : t ∈ tr) (hnd : (tr.map (fun u => u.task_id)).Nodup) :
    tr.filter (fun u => u.task_id == t.task_id) = [t] := by
  induction tr with
  | nil => cases hmem
  | cons u tr ih =>
    rw [List.map_cons, List.nodup_cons] at hnd
    rcases List.mem_cons.mp hmem with rfl | hmem
    · rw [List.filter_cons_of_pos (by simp)]
      have hrest : tr.filter (fun u => u.task_id == t.task_id) = [] := by
        refine List.filter_eq_nil_iff.mpr (fun v hv => ?_)
        intro hh
        have hh2 : v.task_id = t.task_id := by simpa using hh
        exact hnd.1 (hh2 ▸ List.mem_map_of_mem (fun w => w.task_id) hv)
      rw [hrest]
    · refine (List.filter_cons_of_neg ?_).trans (ih hmem hnd.2)
      intro hh
      have hh2 : u.task_id = t.task_id := by simpa using hh
      exact hnd.1 (hh2 ▸ List.mem_map_of_mem (fun w => w.task_id) hmem)

theorem nodup_task_id_filter (tr : List ActiveTracking) (p : ActiveTracking → Bool)
    (hnd : (tr.map (fun u => u.task_id)).Nodup) :
    ((tr.filter p).map (fun u => u.task_id)).Nodup :=
  hnd.sublist ((tr.filter_sublist).map (fun u => u.task_id))

theorem nodup_task_id_append_single (tr : List ActiveTracking) (nt : ActiveTracking)
    (hnd : (tr.map (fun u => u.task_id)).Nodup)
    (hnot : tr.any (fun u => u.task_id == nt.task_id) = false) :
    ((tr ++ [nt]).map (fun u => u.task_id)).Nodup := by
  rw [List.map_append, List.nodup_append]
  refine ⟨hnd, List.nodup_singleton _, ?_⟩
  intro a ha hb
  simp only [List.map_cons, List.map_nil, List.mem_singleton] at hb
  subst hb
  rcases List.mem_map.mp ha with ⟨u, hu, ha2⟩
  exact List.any_eq_false.mp hnot u hu (by simp [ha2])

theorem stop_all_tracking_internal_eq (st : EngineState) (now : Nat) :
    stop_all_tracking_internal st now
      = { foldCommit st st.active_tracking now with active_tracking := [] } := rfl

theorem stop_tracking_none_eq (st : EngineState) (now : Nat)
    (hne : st.active_tracking ≠ []) :
    (stop_tracking st none now).2
      = { foldCommit st st.active_tracking now with active_tracking := [] } := by
  have he : st.active_tracking.isEmpty = false := List.isEmpty_eq_false.mpr hne
  simp only [stop_tracking, he]
  rfl

theorem step_tracking_cases (st : EngineState) (op : Op) :
    (step st op).active_tracking = st.active_tracking
    ∨ (step st op).active_tracking = []
    ∨ (∃ pid tid now, (step st op).active_tracking
        = [{ project_id := pid, task_id := tid, started_at := now }])
    ∨ (∃ p : ActiveTracking → Bool, (step st op).active_tracking = st.active_tracking.filter p)
    ∨ (∃ nt : ActiveTracking, st.active_tracking.any (fun u => u.task_id == nt.task_id) = false
        ∧ (step st op).active_tracking = st.active_tracking ++ [nt]) := by
  cases op with
  | startTracking pid tid allow n1 n2 =>
    simp only [step]
    unfold start_tracking
    by_cases h1 : st.active_tracking.any (fun t => t.task_id == tid) = true
    · rw [if_pos h1]
      exact Or.inl rfl
    · rw [if_neg h1]
      have h1f : st.active_tracking.any (fun t => t.task_id == tid) = false := by
        cases hb : st.active_tracking.any (fun t => t.task_id == tid)
        · rfl
        · exact absurd hb h1
      by_cases h2 : (!allow && !st.active_tracking.isEmpty) = true
      · rw [if_pos h2]
        unfold start_tracking_internal
        by_cases h3 : taskExists (stop_all_tracking_internal st n1).projects pid tid = true
        · rw [if_pos h3]
          exact Or.inr (Or.inr (Or.inl ⟨pid, tid, n2, rfl⟩))
        · rw [if_neg h3]
          exact Or.inr (Or.inl rfl)
      · rw [if_neg h2]
        unfold start_tracking_internal
        by_cases h3 : taskExists st.projects pid tid = true
        · rw [if_pos h3]
          exact Or.inr (Or.inr (Or.inr (Or.inr
            ⟨{ project_id := pid, task_id := tid, started_at := n2 }, h1f, rfl⟩)))
        · rw [if_neg h3]
          exact Or.inl rfl
  | stopTracking tid? now =>
    simp only [step]
    cases tid? with
    | some tid =>
      cases hf : st.active_tracking.find? (fun t => t.task_id == tid) with
      | some t =>
        refine Or.inr (Or.inr (Or.inr (Or.inl ⟨fun u => u.task_id != tid, ?_⟩)))
        simp only [stop_tracking, stop_tracking_for_task_internal, hf]
        rw [commitSession_active_tracking]
      | none =>
        refine Or.inl ?_
        simp only [stop_tracking, stop_tracking_for_task_internal, hf]
    | none =>
      by_cases he : st.active_tracking.isEmpty = true
      · refine Or.inl ?_
        simp only [stop_tracking, he]
        rfl
      · refine Or.inr (Or.inl ?_)
        have he2 : st.active_tracking.isEmpty = false := by
          cases hb : st.active_tracking.isEmpty
          · rfl
          · exact absurd hb he
        simp only [stop_tracking, he2]
        rfl
  | removeTask pid tid =>
    simp only [step]
    unfold remove_task
    by_cases hp : (st.projects.find? (fun p => p.id == pid)).isSome = true
    · rw [if_pos hp]
      exact Or.inr (Or.inr (Or.inr (Or.inl ⟨fun t => t.task_id != tid, rfl⟩)))
    · rw [if_neg hp]
      exact Or.inl rfl
  | removeProject pid =>
    simp only [step]
    cases hf : st.projects.findIdx? (fun p => p.id == pid) with
    | some pos =>
      refine Or.inr (Or.inr (Or.inr (Or.inl ⟨fun t => t.project_id != pid, ?_⟩)))
      simp only [remove_project, hf]
    | none =>
      refine Or.inl ?_
      simp only [remove_project, hf]
  | resetDatabase =>
    simp only [step]
    exact Or.inr (Or.inl rfl)

theorem step_preserves_nodup (st : EngineState) (op : Op)
    (h : (st.active_tracking.map (fun u => u.task_id)).Nodup) :
    ((step st op).active_tracking.map (fun u => u.task_id)).Nodup := by
  rcases step_tracking_cases st op with heq | heq | ⟨pid, tid, now, heq⟩ | ⟨p, heq⟩ |
    ⟨nt, hany, heq⟩
  · rw [heq]; exact h
  · rw [heq]; exact List.nodup_nil
  · rw [heq]; exact List.nodup_singleton _
  · rw [heq]; exact nodup_task_id_filter _ _ h
  · rw [heq]; exact nodup_task_id_append_single _ _ h hany

theorem rotScan_all_done (tasks : List Task) (start : Nat)
    (hall : ∀ tk ∈ tasks, (tk.done_at).isSome) :
    ∀ fuel i, rotScan tasks start i fuel = none := by
  intro fuel
  induction fuel with
  | zero => intro i; rfl
  | succ fuel ih =>
    intro i
    cases hg : tasks.get? ((start + i) % tasks.length) with
    | none =>
      simp only [rotScan, hg]
      exact ih (i + 1)
    | some tk =>
      have hdone : (tk.done_at).isSome := hall tk (List.get?_mem hg)
      simp only [rotScan, hg]
      rw [if_neg (by cases hda : tk.done_at with
        | none => rw [hda] at hdone; cases hdone
        | some v => simp [hda])]
      exact ih (i + 1)

theorem rotScan_finds (tasks : List Task) (start i0 : Nat) (tk : Task)
    (hget : tasks.get? ((start + i0) % tasks.length) = some tk)
    (hnd : tk.done_at = none)
    (hmin : ∀ j tk2, 1 ≤ j → j < i0 →
      tasks.get? ((start + j) % tasks.length) = some tk2 → (tk2.done_at).isSome) :
    ∀ fuel i, 1 ≤ i → i ≤ i0 → i0 < i + fuel →
      rotScan tasks start i fuel = some ((start + i0) % tasks.length, tk) := by
  intro fuel
  induction fuel with
  | zero => intro i h1 h2 h3; omega
  | succ fuel ih =>
    intro i h1 h2 h3
    by_cases hi : i = i0
    · subst hi
      simp only [rotScan, hget]
      rw [if_pos (by simp [hnd])]
    · have hilt : i < i0 := lt_of_le_of_ne h2 hi
      cases hg : tasks.get? ((start + i) % tasks.length) with
      | none =>
        simp only [rotScan, hg]
        exact ih (i + 1) (by omega) (by omega) (by omega)
      | some tk2 =>
        have hdone := hmin i tk2 h1 hilt hg
        simp only [rotScan, hg]
        rw [if_neg (by cases hda : tk2.done_at with
          | none => rw [hda] at hdone; cases hdone
          | some v => simp [hda])]
        exact ih (i + 1) (by omega) (by omega) (by omega)

theorem rotate_task_eq (st : EngineState) (project : Project)
    (hp : st.projects.get? st.current_project_index = some project)
    (hne : project.tasks ≠ []) :
    rotate_task st =
      match findRotation project.tasks project.current_task_index with
      | some (idx, tk) =>
        some (some tk,
          { st with
            projects := st.projects.set st.current_project_index
                ({ project with current_task_index := idx }) })
      | none => some (none, st) := by
  have hpe : st.projects.isEmpty = false := by
    cases hl : st.projects with
    | nil => rw [hl] at hp; cases hp
    | cons a l => rfl
  have hte : project.tasks.isEmpty = false := List.isEmpty_eq_false.mpr hne
  simp only [rotate_task, hpe, hp, hte, Bool.false_eq_true, if_false]

/-- C5: within the current project, `rotate_task` scans forward circularly
from `current_task_index` (probing `(current_task_index + i) % len` for
`i = 1, ..., len`), skips a task iff its `done_at` is set, selects the first
non-done task found, sets `current_task_index` to its position and returns
it; if every task is done it returns no task and leaves the state unchanged. -/
theorem rotate_task_spec (st : EngineState) (project : Project)
    (hp : st.projects.get? st.current_project_index = some project)
    (hne : project.tasks ≠ []) :
    ((∀ tk ∈ project.tasks, (tk.done_at).isSome) → rotate_task st = some (none, st))
    ∧ (∀ i0 tk, 1 ≤ i0 → i0 ≤ project.tasks.length →
        project.tasks.get? ((project.current_task_index + i0) % project.tasks.length)
          = some tk →
        tk.done_at = none →
        (∀ j tk2, 1 ≤ j → j < i0 →
          project.tasks.get? ((project.current_task_index + j) % project.tasks.length)
            = some tk2 → (tk2.done_at).isSome) →
        rotate_task st = some (some tk,
          { st with
            projects := st.projects.set st.current_project_index
                ({ project with current_task_index :=
                    (project.current_task_index + i0) % project.tasks.length }) })) := by
  constructor
  · intro hall
    rw [rotate_task_eq st project hp hne]
    unfold findRotation
    rw [rotScan_all_done project.tasks project.current_task_index hall
      project.tasks.length 1]
  · intro i0 tk h1 h2 hget hnd hmin
    rw [rotate_task_eq st project hp hne]
    unfold findRotation
    rw [rotScan_finds project.tasks project.current_task_index i0 tk hget hnd hmin
      project.tasks.length 1 (le_refl 1) h1 (by omega)]

/-- C5 witness: on `[T1(done), T2, T3(done), T4]` with `current_task_index = 0`,
`rotate_task` selects `T2` at index 1. -/
theorem rotate_task_spec_witness :
    rotate_task rotStateEx = some (some rotT2,
      { rotStateEx with projects := [{ rotProj with current_task_index := 1 }] }) := by
  have h := (rotate_task_spec rotStateEx rotProj rfl (by decide)).2 1 rotT2
    (le_refl 1) (by decide) rfl rfl
    (fun j tk2 hj1 hj2 hg => absurd (Nat.lt_of_lt_of_le hj2 hj1) (Nat.lt_irrefl j))
  exact h

/-- C6: `set_current_project(0)` on a non-empty list selects index 0 without
reordering; `set_current_project(index)` with `0 < index < n` removes the
project at position `index`, reinserts it at position 0 and sets the current
index to 0; `set_current_project(index)` with `index >= n` changes nothing
and returns the unchanged current index. -/
theorem set_current_project_spec (st : EngineState) (index : Nat) :
    (0 < st.projects.length →
      set_current_project st 0 = (0, { st with current_project_index := 0 }))
    ∧ (∀ p, st.projects.get? index = some p → 0 < index →
        set_current_project st index
          = (0, { st with
                  projects := p :: (st.projects.take index
                      ++ st.projects.drop (index + 1)),
                  current_project_index := 0 }))
    ∧ (st.projects.length ≤ index →
        set_current_project st index = (st.current_project_index, st)) := by
  refine ⟨?_, ?_, ?_⟩
  · intro hlen
    obtain ⟨p, hp⟩ : ∃ p, st.projects.get? 0 = some p := by
      cases hl : st.projects with
      | nil => rw [hl] at hlen; cases hlen
      | cons a l => exact ⟨a, by simp [hl]⟩
    simp only [set_current_project, hp]
    rw [if_neg (by omega)]
  · intro p hp hpos
    simp only [set_current_project, hp]
    rw [if_pos hpos, List.eraseIdx_eq_take_drop_succ]
  · intro hge
    simp only [set_current_project, List.get?_len_le hge]

/-- C6 witness: `set_current_project(2)` on `[A, B, C]` yields `[C, A, B]`
with current index 0; `set_current_project(0)` is a pure selection; and an
out-of-range index is a no-op. -/
theorem set_current_project_spec_witness :
    set_current_project selStateEx 2
      = (0, { selStateEx with projects := [prC, prA, prB], current_project_index := 0 })
    ∧ set_current_project selStateEx 0 = (0, selStateEx)
    ∧ set_current_project selStateEx 3 = (0, selStateEx) := by
  refine ⟨?_, ?_, ?_⟩
  · exact (set_current_project_spec selStateEx 2).2.1 prC rfl (by decide)
  · have h := (set_current_project_spec selStateEx 0).1 (by decide)
    simpa using h
  · have h := (set_current_project_spec selStateEx 3).2.2 (by decide)
    simpa using h

/-- C3 (amended): a task row of the probed project appears in the list loaded
by `load_tasks` iff it is not archived and either not done, or done at a
positive timestamp strictly inside the 5-hour window
(`done_at > now - DONE_HIDE_AFTER_SECONDS` with saturating subtraction,
equivalently `1 <= done_at` and `now - done_at < 18000`); the boundary
`now - done_at = 18000` is hidden, not visible. -/
theorem load_tasks_visibility (conn : Store) (now pid : Nat) (r : TaskRow)
    (hmem : r ∈ conn.tasks) (hpid : r.project_id = pid)
    (hle : ∀ d, r.done_at = some d → d ≤ now) :
    r ∈ load_tasks conn now pid
      ↔ (r.archived_at = none ∧ (r.done_at = none
          ∨ ∃ d, r.done_at = some d ∧ 1 ≤ d ∧ now - d < DONE_HIDE_AFTER_SECONDS)) := by
  have h18 : DONE_HIDE_AFTER_SECONDS = 18000 := rfl
  unfold load_tasks taskRowVisible
  rw [List.mem_filter]
  cases hda : r.done_at with
  | none =>
    simp [hmem, hpid, hda, Option.isNone_iff_eq_none]
  | some d =>
    have hdle := hle d hda
    simp only [hmem, true_and, hpid, beq_self_eq_true, Bool.true_and, hda,
      Bool.and_eq_true, Option.isNone_iff_eq_none, decide_eq_true_eq, h18]
    constructor
    · rintro ⟨ha, hlt⟩
      exact ⟨ha, Or.inr ⟨d, rfl, by omega, by omega⟩⟩
    · rintro ⟨ha, hcase⟩
      refine ⟨ha, ?_⟩
      rcases hcase with h | ⟨d2, hd2, hd1, hd3⟩
      · exact absurd h (by simp)
      · have hdd : d = d2 := Option.some.inj hd2
        omega

/-- C3 witness: a row done at time 50 probed at time 18000 (17950 seconds
later, inside the window) is loaded, and satisfies the amended visibility
condition. -/
theorem load_tasks_visibility_witness :
    doneRowEx ∈ load_tasks storeVisibleEx 18000 1
    ∧ (doneRowEx.archived_at = none ∧ (doneRowEx.done_at = none
        ∨ ∃ d, doneRowEx.done_at = some d ∧ 1 ≤ d ∧ 18000 - d < DONE_HIDE_AFTER_SECONDS)) := by
  have hcond : doneRowEx.archived_at = none ∧ (doneRowEx.done_at = none
      ∨ ∃ d, doneRowEx.done_at = some d ∧ 1 ≤ d ∧ 18000 - d < DONE_HIDE_AFTER_SECONDS) :=
    ⟨rfl, Or.inr ⟨50, rfl, by decide, by decide⟩⟩
  have h := load_tasks_visibility storeVisibleEx 18000 1 doneRowEx (by decide) rfl
    (fun d hd => by simp [doneRowEx] at hd; omega)
  exact ⟨h.mpr hcond, hcond⟩

/-- C3 counterexample: a row done exactly 18000 seconds before the probe time
(`done_at = 100`, `now = 18100`, so `now - done_at = 18000 <= 18000`) is not
archived, yet `load_tasks` does not return it: the claim includes the
boundary as visible, the code hides it. -/
theorem load_tasks_boundary_counterexample :
    boundaryRowEx.archived_at = none
    ∧ boundaryRowEx.done_at = some 100
    ∧ 18100 - 100 ≤ 18000
    ∧ boundaryRowEx ∉ load_tasks storeBoundaryEx 18100 1 := by decide

/-- C7: in every state reachable from a startup state with no active session
(any projects, any current index, any ledger) by any sequence of engine
operations — `start_tracking` in either mode, `stop_tracking` with or without
a task id, `remove_task`, `remove_project`, `reset_database` — the active
session set contains at most one session per task id. -/
theorem reachable_sessions_unique (ops : List Op) (ps : List Project) (cpi : Nat)
    (entries : List TimeEntry) :
    ((runOps
        { projects := ps, current_project_index := cpi, active_tracking := [],
          time_entries := entries } ops).active_tracking.map (fun u => u.task_id)).Nodup := by
  have hrun : ∀ (l : List Op) (st : EngineState),
      (st.active_tracking.map (fun u => u.task_id)).Nodup →
      ((runOps st l).active_tracking.map (fun u => u.task_id)).Nodup := by
    intro l
    induction l with
    | nil => intro st h; exact h
    | cons op l ih => intro st h; exact ih (step st op) (step_preserves_nodup st op h)
  exact hrun ops _ (by simp)

/-- C8: the claim that every operation returns without panicking fails on the
stored current project index: rebuilt from a store persisting
`current_project_index = 1` beside a single visible project, the cache makes
`get_current_project` evaluate `projects[1]` on a one-element list — an
out-of-range index, a panic in the source, `none` in the embedding —
and `rotate_task` hits the same indexing. -/
theorem get_current_project_stale_index_panics :
    staleIndexEx.projects ≠ []
    ∧ get_current_project staleIndexEx = none
    ∧ rotate_task staleIndexEx = none := by decide

theorem migrateProjectRow_idem (t1 t2 : Nat) (r : ProjectRow) :
    migrateProjectRow t2 (migrateProjectRow t1 r) = migrateProjectRow t1 r := by
  unfold migrateProjectRow
  cases ha : r.archived <;> cases hat : r.archived_at <;> simp [ha, hat]

theorem migrateTaskRow_idem (t1 t2 : Nat) (r : TaskRow) :
    migrateTaskRow t2 (migrateTaskRow t1 r) = migrateTaskRow t1 r := by
  unfold migrateTaskRow
  cases hd : r.done <;> cases hda : r.done_at <;> cases ha : r.archived <;>
    cases hat : r.archived_at <;> simp [hd, hda, ha, hat]

theorem insertOrIgnoreAT_cons (tbl : List ATRow) (r : ATRow) (rows : List ATRow) :
    insertOrIgnoreAT tbl (r :: rows)
      = insertOrIgnoreAT (if tbl.any (fun x => x.id == r.id) then tbl else tbl ++ [r])
          rows := rfl

theorem insertOrIgnoreAT_nodup (rows : List ATRow) :
    ∀ tbl : List ATRow, (tbl.map (fun r => r.id)).Nodup →
      ((insertOrIgnoreAT tbl rows).map (fun r => r.id)).Nodup := by
  induction rows with
  | nil => intro tbl h; exact h
  | cons r rows ih =>
    intro tbl h
    rw [insertOrIgnoreAT_cons]
    by_cases ha : tbl.any (fun x => x.id == r.id) = true
    · rw [if_pos ha]
      exact ih tbl h
    · rw [if_neg ha]
      refine ih (tbl ++ [r]) ?_
      rw [List.map_append, List.nodup_append]
      refine ⟨h, List.nodup_singleton _, ?_⟩
      intro a hmem hb
      simp only [List.map_cons, List.map_nil, List.mem_singleton] at hb
      subst hb
      rcases List.mem_map.mp hmem with ⟨x, hx, hxid⟩
      exact ha (List.any_eq_true.mpr ⟨x, hx, by simp [hxid]⟩)

theorem insertOrIgnoreAT_of_nodup (rows : List ATRow) :
    ∀ tbl : List ATRow, ((tbl ++ rows).map (fun r => r.id)).Nodup →
      insertOrIgnoreAT tbl rows = tbl ++ rows := by
  induction rows with
  | nil => intro tbl h; simp [insertOrIgnoreAT]
  | cons r rows ih =>
    intro tbl h
    have ha : tbl.any (fun x => x.id == r.id) = false := by
      refine List.any_eq_false.mpr (fun x hx => ?_)
      intro hb
      have hxr : x.id = r.id := by simpa using hb
      rw [List.map_append, List.nodup_append] at h
      exact h.2.2 (List.mem_map_of_mem (fun w => w.id) hx) (by simp [hxr])
    rw [insertOrIgnoreAT_cons, if_neg (by simp [ha])]
    have hassoc : (tbl ++ [r]) ++ rows = tbl ++ r :: rows := by simp
    rw [ih (tbl ++ [r]) (by rw [hassoc]; exact h), hassoc]

theorem insertOrIgnoreAT_idem (rows : List ATRow) :
    insertOrIgnoreAT [] (insertOrIgnoreAT [] rows) = insertOrIgnoreAT [] rows := by
  have h := insertOrIgnoreAT_nodup rows [] List.nodup_nil
  have h2 := insertOrIgnoreAT_of_nodup (insertOrIgnoreAT [] rows) [] (by simpa using h)
  simpa using h2

/-- C9: `init_db` is idempotent: running it twice (at any two times) leaves
exactly the schema and row contents of a single run — a row whose legacy
boolean (`done` or `archived`) is set and whose timestamp column is `NULL`
is stamped with the run's current time, a row whose timestamp is already set
keeps it unchanged on every later run, and re-running never errors on an
existing column or table (every such failure is swallowed, so the result is
again the full schema). -/
theorem init_db_idempotent (s : Store) (t1 t2 : Nat) :
    init_db (init_db s t1) t2 = init_db s t1
    ∧ (init_db s t1).schema = fullSchema
    ∧ (∀ r : TaskRow,
        (migrateTaskRow t1 { r with done := true, done_at := none }).done_at = some t1)
    ∧ (∀ r : TaskRow, ∀ d,
        (migrateTaskRow t1 { r with done_at := some d }).done_at = some d)
    ∧ (∀ r : TaskRow,
        (migrateTaskRow t1 { r with archived := true, archived_at := none }).archived_at
          = some t1)
    ∧ (∀ r : TaskRow, ∀ d,
        (migrateTaskRow t1 { r with archived_at := some d }).archived_at = some d)
    ∧ (∀ r : ProjectRow,
        (migrateProjectRow t1 { r with archived := true, archived_at := none }).archived_at
          = some t1)
    ∧ (∀ r : ProjectRow, ∀ d,
        (migrateProjectRow t1 { r with archived_at := some d }).archived_at = some d) := by
  refine ⟨?_, rfl, ?_, ?_, ?_, ?_, ?_, ?_⟩
  · unfold init_db
    have hproj : (s.projects.map (migrateProjectRow t1)).map (migrateProjectRow t2)
        = s.projects.map (migrateProjectRow t1) := by
      rw [List.map_map]
      exact List.map_congr_left (fun r _ => migrateProjectRow_idem t1 t2 r)
    have htask : (s.tasks.map (migrateTaskRow t1)).map (migrateTaskRow t2)
        = s.tasks.map (migrateTaskRow t1) := by
      rw [List.map_map]
      exact List.map_congr_left (fun r _ => migrateTaskRow_idem t1 t2 r)
    rw [hproj, htask, insertOrIgnoreAT_idem s.active_tracking]
  · intro r
    cases ha : r.archived <;> cases hat : r.archived_at <;>
      simp [migrateTaskRow, ha, hat]
  · intro r d
    cases hd : r.done <;> cases ha : r.archived <;> cases hat : r.archived_at <;>
      simp [migrateTaskRow, hd, ha, hat]
  · intro r
    cases hd : r.done <;> cases hda : r.done_at <;>
      simp [migrateTaskRow, hd, hda]
  · intro r d
    cases hd : r.done <;> cases hda : r.done_at <;>
      simp [migrateTaskRow, hd, hda]
  · intro r
    simp [migrateProjectRow]
  · intro r d
    simp [migrateProjectRow]

/-- C10: `delete_project_permanent` and `delete_task_permanent` mutate only
the durable store: every field of the in-memory cache (projects list, current
project index, id counters, active sessions) is unchanged, so `get_projects`
— which reads the cache — returns the same list before and after, and any
project listed before the call is still listed afterwards for the rest of the
process lifetime, until a restart rebuilds the cache from the store. -/
theorem delete_permanent_frame (s : AppFull) (pid tid : Nat) :
    (delete_project_permanent s pid).2.projects = s.projects
    ∧ (delete_project_permanent s pid).2.current_project_index = s.current_project_index
    ∧ (delete_project_permanent s pid).2.next_project_id = s.next_project_id
    ∧ (delete_project_permanent s pid).2.next_task_id = s.next_task_id
    ∧ (delete_project_permanent s pid).2.active_tracking = s.active_tracking
    ∧ (delete_task_permanent s tid).2.projects = s.projects
    ∧ (delete_task_permanent s tid).2.current_project_index = s.current_project_index
    ∧ (delete_task_permanent s tid).2.next_project_id = s.next_project_id
    ∧ (delete_task_permanent s tid).2.next_task_id = s.next_task_id
    ∧ (delete_task_permanent s tid).2.active_tracking = s.active_tracking
    ∧ get_projects (delete_project_permanent s pid).2 = get_projects s
    ∧ get_projects (delete_task_permanent s tid).2 = get_projects s :=
  ⟨rfl, rfl, rfl, rfl, rfl, rfl, rfl, rfl, rfl, rfl, rfl, rfl⟩

theorem start_tracking_internal_none (st : EngineState) (pid tid now : Nat)
    (hnx : taskExists st.projects pid tid = false) :
    start_tracking_internal st pid tid now = (st.active_tracking, st) := by
  unfold start_tracking_internal
  rw [if_neg (by simp [hnx])]

/-- C4 (amended): starting tracking for a project/task pair absent from the
cache never creates a session: the resulting session set is a sublist of the
old one and has a session for the task iff one already existed.  The whole
state is returned unchanged whenever `allow_multiple = true`, and whenever no
session is active; but with `allow_multiple = false` and a non-empty session
set the existing sessions are first stopped and committed before the
existence check, so the state does change in that case. -/
theorem start_tracking_nonexistent (st : EngineState) (pid tid : Nat)
    (hnx : taskExists st.projects pid tid = false) :
    (∀ n1 n2, start_tracking st pid tid true n1 n2 = (st.active_tracking, st))
    ∧ (st.active_tracking = [] →
        ∀ allow n1 n2, start_tracking st pid tid allow n1 n2 = (st.active_tracking, st))
    ∧ (∀ allow n1 n2,
        (start_tracking st pid tid allow n1 n2).2.active_tracking.Sublist
          st.active_tracking)
    ∧ (∀ allow n1 n2,
        (start_tracking st pid tid allow n1 n2).2.active_tracking.any
            (fun u => u.task_id == tid)
          = st.active_tracking.any (fun u => u.task_id == tid)) := by
  have hnxS : ∀ n1, taskExists (stop_all_tracking_internal st n1).projects pid tid
      = false := by
    intro n1
    show taskExists (foldCommit st st.active_tracking n1).projects pid tid = false
    rw [taskExists_foldCommit]
    exact hnx
  have hexcl : ∀ n1 n2, start_tracking_internal (stop_all_tracking_internal st n1) pid tid n2
      = ((stop_all_tracking_internal st n1).active_tracking,
         stop_all_tracking_internal st n1) :=
    fun n1 n2 => start_tracking_internal_none _ pid tid n2 (hnxS n1)
  refine ⟨?_, ?_, ?_, ?_⟩
  · intro n1 n2
    unfold start_tracking
    by_cases h1 : st.active_tracking.any (fun t => t.task_id == tid) = true
    · rw [if_pos h1]
    · rw [if_neg h1, if_neg (by simp), start_tracking_internal_none st pid tid n2 hnx]
  · intro h0 allow n1 n2
    unfold start_tracking
    rw [if_neg (by rw [h0]; simp), if_neg (by rw [h0]; simp),
      start_tracking_internal_none st pid tid n2 hnx]
  · intro allow n1 n2
    unfold start_tracking
    by_cases h1 : st.active_tracking.any (fun t => t.task_id == tid) = true
    · rw [if_pos h1]
    · rw [if_neg h1]
      by_cases h2 : (!allow && !st.active_tracking.isEmpty) = true
      · rw [if_pos h2, hexcl n1 n2]
        exact List.nil_sublist _
      · rw [if_neg h2, start_tracking_internal_none st pid tid n2 hnx]
  · intro allow n1 n2
    unfold start_tracking
    by_cases h1 : st.active_tracking.any (fun t => t.task_id == tid) = true
    · rw [if_pos h1]
    · rw [if_neg h1]
      have h1f : st.active_tracking.any (fun t => t.task_id == tid) = false := by
        cases hb : st.active_tracking.any (fun t => t.task_id == tid)
        · rfl
        · exact absurd hb h1
      by_cases h2 : (!allow && !st.active_tracking.isEmpty) = true
      · rw [if_pos h2, hexcl n1 n2, h1f]
        rfl
      · rw [if_neg h2, start_tracking_internal_none st pid tid n2 hnx]

/-- C4 witness: instantiation at a concrete state (one session active on task
1) and the absent pair (9, 9). -/
theorem start_tracking_nonexistent_witness :
    taskExists exclStateEx.projects 9 9 = false
    ∧ start_tracking exclStateEx 9 9 true 4 5 = (exclStateEx.active_tracking, exclStateEx)
    ∧ (start_tracking exclStateEx 9 9 false 4 5).2.active_tracking.Sublist
        exclStateEx.active_tracking
    ∧ (start_tracking exclStateEx 9 9 false 4 5).2.active_tracking.any
          (fun u => u.task_id == 9)
        = exclStateEx.active_tracking.any (fun u => u.task_id == 9) := by
  have h := start_tracking_nonexistent exclStateEx 9 9 (by decide)
  exact ⟨by decide, h.1 4 5, h.2.2.1 false 4 5, h.2.2.2 false 4 5⟩

/-- C4 counterexample: with one session active and `allow_multiple = false`,
`start_tracking` on the absent pair (99, 99) does not return the state
unchanged — it stops (and here commits) the existing session, leaving the
active set empty. -/
theorem start_tracking_nonexistent_counterexample :
    taskExists missingTargetEx.projects 99 99 = false
    ∧ missingTargetEx.active_tracking ≠ []
    ∧ (start_tracking missingTargetEx 99 99 false 10 11).2.active_tracking = []
    ∧ (start_tracking missingTargetEx 99 99 false 10 11).2 ≠ missingTargetEx := by decide

/-- C1 (amended): in exclusive mode (`allow_multiple = false`), starting a
task that has no session while other sessions exist — provided the target
project/task pair exists in the cache and each running session refers to a
task present in the cache — first stops every existing session (each session
of at least 3 seconds adds its elapsed time to its task's `time_seconds` and
appends exactly the corresponding `TimeEntry` rows in order; shorter sessions
are discarded and touch nothing) and then starts the new session: afterwards
the active set contains exactly one session, for the target task. -/
theorem start_tracking_exclusive_spec (st : EngineState) (pid tid now1 now2 : Nat)
    (hne : st.active_tracking ≠ [])
    (huntracked : st.active_tracking.any (fun t => t.task_id == tid) = false)
    (hexists : taskExists st.projects pid tid = true)
    (hwf : ∀ t ∈ st.active_tracking,
      (lookupTask st.projects t.project_id t.task_id).isSome)
    (_htime : ∀ t ∈ st.active_tracking, t.started_at ≤ now1)
    (hnd : (st.active_tracking.map (fun u => u.task_id)).Nodup) :
    (start_tracking st pid tid false now1 now2).2.active_tracking
        = [{ project_id := pid, task_id := tid, started_at := now2 }]
    ∧ (start_tracking st pid tid false now1 now2).1
        = [{ project_id := pid, task_id := tid, started_at := now2 }]
    ∧ (start_tracking st pid tid false now1 now2).2.time_entries
        = st.time_entries
          ++ (st.active_tracking.filter (fun t => decide (3 ≤ now1 - t.started_at))).map
              (fun t => mkTimeEntry t now1)
    ∧ (∀ t ∈ st.active_tracking, 3 ≤ now1 - t.started_at →
        lookupTask (start_tracking st pid tid false now1 now2).2.projects
            t.project_id t.task_id
          = (lookupTask st.projects t.project_id t.task_id).map
              (addElapsed (now1 - t.started_at)))
    ∧ (∀ t ∈ st.active_tracking, now1 - t.started_at < 3 →
        lookupTask (start_tracking st pid tid false now1 now2).2.projects
            t.project_id t.task_id
          = lookupTask st.projects t.project_id t.task_id) := by
  have hS : taskExists (stop_all_tracking_internal st now1).projects pid tid = true := by
    show taskExists (foldCommit st st.active_tracking now1).projects pid tid = true
    rw [taskExists_foldCommit]
    exact hexists
  have h1 : ¬ st.active_tracking.any (fun t => t.task_id == tid) = true := by
    rw [huntracked]
    simp
  have h2 : (!false && !st.active_tracking.isEmpty) = true := by
    simp [List.isEmpty_eq_false.mpr hne]
  have hmain : start_tracking st pid tid false now1 now2
      = ([({ project_id := pid, task_id := tid, started_at := now2 } : ActiveTracking)],
         { stop_all_tracking_internal st now1 with
           active_tracking :=
             [{ project_id := pid, task_id := tid, started_at := now2 }] }) := by
    unfold start_tracking
    rw [if_neg h1, if_pos h2]
    unfold start_tracking_internal
    rw [if_pos hS]
    rfl
  have hcommits : ∀ t ∈ st.active_tracking,
      commits st t now1 = decide (3 ≤ now1 - t.started_at) := by
    intro t ht
    unfold commits
    rw [hwf t ht, Bool.and_true]
  refine ⟨by rw [hmain], by rw [hmain], ?_, ?_, ?_⟩
  · rw [hmain]
    show (stop_all_tracking_internal st now1).time_entries = _
    show (foldCommit st st.active_tracking now1).time_entries = _
    rw [foldCommit_time_entries,
      List.filter_congr (fun t ht => hcommits t ht)]
  · intro t ht ht3
    rw [hmain]
    show lookupTask (stop_all_tracking_internal st now1).projects t.project_id t.task_id = _
    show lookupTask (foldCommit st st.active_tracking now1).projects t.project_id t.task_id
      = _
    rw [lookupTask_foldCommit_self st.active_tracking st now1 t ht hnd,
      hcommits t ht, if_pos (by simpa using ht3)]
  · intro t ht ht3
    rw [hmain]
    show lookupTask (stop_all_tracking_internal st now1).projects t.project_id t.task_id = _
    show lookupTask (foldCommit st st.active_tracking now1).projects t.project_id t.task_id
      = _
    rw [lookupTask_foldCommit_self st.active_tracking st now1 t ht hnd,
      hcommits t ht, if_neg (by simpa using Nat.not_le.mpr ht3)]

/-- C1 witness: two projects, a 10-second session on task 1; exclusively
starting task 2 of project 2 commits task 1's session (time entry appended,
`time_seconds` 100 becomes 110) and leaves exactly one session, for task 2. -/
theorem start_tracking_exclusive_spec_witness :
    (start_tracking exclStateEx 2 2 false 10 11).2.active_tracking
      = [{ project_id := 2, task_id := 2, started_at := 11 }]
    ∧ (start_tracking exclStateEx 2 2 false 10 11).2.time_entries
      = [mkTimeEntry { project_id := 1, task_id := 1, started_at := 0 } 10]
    ∧ lookupTask (start_tracking exclStateEx 2 2 false 10 11).2.projects 1 1
      = some (addElapsed 10 tkA) := by
  have h := start_tracking_exclusive_spec exclStateEx 2 2 10 11 (by decide) (by decide)
    (by decide) (by decide) (by decide) (by decide)
  refine ⟨h.1, ?_, ?_⟩
  · rw [h.2.2.1]
    decide
  · have hl := h.2.2.2.1 { project_id := 1, task_id := 1, started_at := 0 }
      (by decide) (by decide)
    rw [hl]
    decide

/-- C1 counterexample: with a session running on task 1 and `allow_multiple =
false`, calling `start_tracking` for the pair (2, 2) — which has no session
and at least one other session exists, but is absent from the cache — leaves
the active set empty, not a single session for task 2: the claim as stated
fails without the target-exists hypothesis. -/
theorem start_tracking_exclusive_counterexample :
    missingTargetEx.active_tracking ≠ []
    ∧ missingTargetEx.active_tracking.any (fun t => t.task_id == 2) = false
    ∧ (start_tracking missingTargetEx 2 2 false 10 11).2.active_tracking = [] := by decide

/-- C2: stopping an active session — by `stop_tracking` with its task id, by
`stop_tracking` with no task id, or by the exclusive-mode stop-all path —
removes the session and, exactly when `elapsed = now - started_at >= 3`, adds
`elapsed` to the task's cumulative `time_seconds` and appends exactly one
`TimeEntry` of that duration for the task; when `elapsed < 3` the session is
removed with `time_seconds` unchanged and no `TimeEntry` appended. -/
theorem stop_tracking_commit_spec (st : EngineState) (t : ActiveTracking) (now : Nat)
    (tk : Task)
    (hmem : t ∈ st.active_tracking)
    (hnd : (st.active_tracking.map (fun u => u.task_id)).Nodup)
    (hlook : lookupTask st.projects t.project_id t.task_id = some tk)
    (_htime : t.started_at ≤ now) :
    (stop_tracking st (some t.task_id) now).1 = some (now - t.started_at)
    ∧ (stop_tracking st (some t.task_id) now).2.active_tracking
        = st.active_tracking.filter (fun u => u.task_id != t.task_id)
    ∧ lookupTask (stop_tracking st (some t.task_id) now).2.projects
          t.project_id t.task_id
        = (if 3 ≤ now - t.started_at then some (addElapsed (now - t.started_at) tk)
           else some tk)
    ∧ (stop_tracking st (some t.task_id) now).2.time_entries
        = st.time_entries
          ++ (if 3 ≤ now - t.started_at then [mkTimeEntry t now] else [])
    ∧ (stop_tracking st none now).2.active_tracking = []
    ∧ lookupTask (stop_tracking st none now).2.projects t.project_id t.task_id
        = (if 3 ≤ now - t.started_at then some (addElapsed (now - t.started_at) tk)
           else some tk)
    ∧ (stop_tracking st none now).2.time_entries.filter
          (fun en => en.task_id == t.task_id)
        = st.time_entries.filter (fun en => en.task_id == t.task_id)
          ++ (if 3 ≤ now - t.started_at then [mkTimeEntry t now] else [])
    ∧ (stop_all_tracking_internal st now).active_tracking = []
    ∧ lookupTask (stop_all_tracking_internal st now).projects t.project_id t.task_id
        = (if 3 ≤ now - t.started_at then some (addElapsed (now - t.started_at) tk)
           else some tk)
    ∧ (stop_all_tracking_internal st now).time_entries.filter
          (fun en => en.task_id == t.task_id)
        = st.time_entries.filter (fun en => en.task_id == t.task_id)
          ++ (if 3 ≤ now - t.started_at then [mkTimeEntry t now] else []) := by
  have hne : st.active_tracking ≠ [] := by
    intro h0
    rw [h0] at hmem
    cases hmem
  have hf : st.active_tracking.find? (fun u => u.task_id == t.task_id) = some t :=
    find?_eq_of_mem_nodup st.active_tracking t hmem hnd
  have hcom : commits st t now = decide (3 ≤ now - t.started_at) := by
    unfold commits
    rw [hlook]
    simp
  have hsingle : stop_tracking st (some t.task_id) now
      = (some (now - t.started_at),
         { commitSession st t now with
           active_tracking := (commitSession st t now).active_tracking.filter
             (fun u => u.task_id != t.task_id) }) := by
    show stop_tracking_for_task_internal st t.task_id now = _
    simp only [stop_tracking_for_task_internal, hf]
  have hlook1 : lookupTask (commitSession st t now).projects t.project_id t.task_id
      = (if 3 ≤ now - t.started_at then some (addElapsed (now - t.started_at) tk)
         else some tk) := by
    rw [lookupTask_commitSession_self, hcom, hlook]
    by_cases h3 : 3 ≤ now - t.started_at
    · rw [if_pos (by simp [h3]), if_pos h3]
      rfl
    · rw [if_neg (by simp [h3]), if_neg h3]
  have hent1 : (commitSession st t now).time_entries
      = st.time_entries
        ++ (if 3 ≤ now - t.started_at then [mkTimeEntry t now] else []) := by
    by_cases h3 : 3 ≤ now - t.started_at
    · rw [commitSession_eq, hcom, if_pos (show decide (3 ≤ now - t.started_at) = true by
        simp [h3]), if_pos h3]
    · rw [commitSession_eq, hcom, if_neg (show ¬ decide (3 ≤ now - t.started_at) = true by
        simp [h3]), if_neg h3, List.append_nil]
  have hSnone := stop_tracking_none_eq st now hne
  have hlookS : lookupTask (foldCommit st st.active_tracking now).projects
      t.project_id t.task_id
      = (if 3 ≤ now - t.started_at then some (addElapsed (now - t.started_at) tk)
         else some tk) := by
    rw [lookupTask_foldCommit_self st.active_tracking st now t hmem hnd, hcom, hlook]
    by_cases h3 : 3 ≤ now - t.started_at
    · rw [if_pos (by simp [h3]), if_pos h3]
      rfl
    · rw [if_neg (by simp [h3]), if_neg h3]
  have hentS : (foldCommit st st.active_tracking now).time_entries.filter
      (fun en => en.task_id == t.task_id)
      = st.time_entries.filter (fun en => en.task_id == t.task_id)
        ++ (if 3 ≤ now - t.started_at then [mkTimeEntry t now] else []) := by
    rw [foldCommit_time_entries, List.filter_append]
    congr 1
    rw [List.filter_map, List.filter_filter]
    rw [show (fun a => ((fun en => en.task_id == t.task_id) ∘ fun u => mkTimeEntry u now) a
        && commits st a now)
        = (fun a : ActiveTracking => (a.task_id == t.task_id) && commits st a now) from rfl]
    have hsplit : st.active_tracking.filter
        (fun a => (a.task_id == t.task_id) && commits st a now)
        = (st.active_tracking.filter (fun u => u.task_id == t.task_id)).filter
            (fun u => commits st u now) := by
      rw [List.filter_filter]
      exact (List.filter_congr (fun a _ => Bool.and_comm _ _)).symm
    rw [hsplit, filter_beq_of_mem_nodup st.active_tracking t hmem hnd]
    by_cases h3 : 3 ≤ now - t.started_at
    · simp [hcom, h3]
    · simp [hcom, h3]
  refine ⟨?_, ?_, ?_, ?_, ?_, ?_, ?_, ?_, ?_, ?_⟩
  · rw [hsingle]
  · rw [hsingle]
    show (commitSession st t now).active_tracking.filter _ = _
    rw [commitSession_active_tracking]
  · rw [hsingle]
    exact hlook1
  · rw [hsingle]
    exact hent1
  · rw [hSnone]
  · rw [hSnone]
    exact hlookS
  · rw [hSnone]
    exact hentS
  · rfl
  · exact hlookS
  · exact hentS

/-- C2 witness: the 10-second session on task 1 of `stopStateEx` stopped via
`stop_tracking(Some 1)` returns 10, empties the active set, adds 10 seconds
to the task (100 becomes 110) and appends exactly one matching `TimeEntry`. -/
theorem stop_tracking_commit_spec_witness :
    (stop_tracking stopStateEx (some 1) 10).1 = some 10
    ∧ (stop_tracking stopStateEx (some 1) 10).2.active_tracking = []
    ∧ lookupTask (stop_tracking stopStateEx (some 1) 10).2.projects 1 1
        = some (addElapsed 10 tkA)
    ∧ (stop_tracking stopStateEx (some 1) 10).2.time_entries
        = [mkTimeEntry { project_id := 1, task_id := 1, started_at := 0 } 10]
    ∧ (stop_tracking stopStateEx none 10).2.active_tracking = [] := by
  have h := stop_tracking_commit_spec stopStateEx
    { project_id := 1, task_id := 1, started_at := 0 } 10 tkA
    (by decide) (by decide) (by decide) (by decide)
  exact ⟨h.1.trans (by decide), h.2.1.trans (by decide), h.2.2.1.trans (by decide),
    h.2.2.2.1.trans (by decide), h.2.2.2.2.1⟩

end Rotator
